import Mathlib

/-!
Shallow embedding of the `git-host` repository (two C translation units:
`src/git-host/main.c` and `src/ssh-host-authorized-keys/main.c`).

Conventions of the embedding:
* A Lean `String` models a NUL-terminated C string; since a C string cannot
  contain an interior NUL byte, functions that iterate `while (*p != '\0')`
  process `s.data.takeWhile (· != '\x00')`, exactly mirroring where the C
  loop stops if a NUL were present.
* In-place C buffers written left to right are modelled as reversed
  `List Char` accumulators (most recently written character at the head).
* `errx`/`exit` control flow is modelled with `Except`/sum-like result types;
  the distinct exit paths of the C code map to distinct constructors.
* `getenv("SSH_AUTHORIZED_BY")` and the `config.h` constants
  (`CONFIG_GIT_HOST_REPOSITORIES`, `CONFIG_GIT_EXEC_PATH`) are passed as
  explicit parameters.
-/

set_option maxHeartbeats 1000000

/-! ### src/ssh-host-authorized-keys/main.c -/

/-- C `isblank` in the default locale: a space or a horizontal tab. -/
def isblank (c : Char) : Bool := c == ' ' || c == '\t'

/-- ASCII lower-casing, as `tolower` behaves on the byte range used here. -/
def asciiLower (c : Char) : Char :=
  if 'A' ≤ c ∧ c ≤ 'Z' then Char.ofNat (c.toNat + 32) else c

/-- `strncasecmp(entry, s, strlen(s)) == 0`: the first list is a
case-insensitive prefix of the second. A too-short `entry` (NUL reached)
compares unequal because the pattern characters are non-NUL. -/
def strncasecmpEq : List Char → List Char → Bool
  | [], _ => true
  | _ :: _, [] => false
  | a :: s, b :: e => asciiLower a == asciiLower b && strncasecmpEq s e

/-- The quoted-value scanner inside the `AUTHORIZED_KEYS_OPTION_WITH_ARGS`
branch of `ssh_host_authorized_keys_skip_options`
(`while (entry[skipped] != '\0' && entry[skipped] != '"') ...`): a
backslash-escaped quote is skipped as two characters; the result is the rest
of the line after the closing quote, or `none` when the value is
unterminated (NUL reached first, the C `return -1`). -/
def ssh_scan_quoted_value : List Char → Option (List Char)
  | [] => none
  | '"' :: rest => some rest
  | '\\' :: '"' :: rest => ssh_scan_quoted_value rest
  | _ :: rest => ssh_scan_quoted_value rest

/-- The three shapes of the `struct authorized_keys_option` table. -/
inductive SshOptionType
  | simple
  | allowNo
  | withArgs
deriving DecidableEq

/-- The `options[]` table of `ssh_host_authorized_keys_skip_options`, in
declaration order. -/
def sshd_authorized_keys_options : List (String × SshOptionType) :=
  [("restrict", .simple), ("cert-authority", .simple),
   ("port-forwarding", .allowNo), ("agent-forwarding", .allowNo),
   ("x11-forwarding", .allowNo), ("touch-required", .allowNo),
   ("verify-required", .allowNo), ("pty", .allowNo), ("user-rc", .allowNo),
   ("command", .withArgs), ("principals", .withArgs), ("from", .withArgs),
   ("expiry-time", .withArgs), ("environment", .withArgs),
   ("permitopen", .withArgs), ("permitlisten", .withArgs),
   ("tunnel", .withArgs)]

/-- One iteration of the inner `for` loop of
`ssh_host_authorized_keys_skip_options` for a single table entry:
`.error ()` is the hard `return -1` (malformed argument-bearing option),
`.ok none` means this option did not match (`skipped == 0`),
`.ok (some rest)` means the option matched and the scan advanced past it. -/
def ssh_authorized_keys_option_try (entry : List Char) (optname : String)
    (ty : SshOptionType) : Except Unit (Option (List Char)) :=
  match ty with
  | .simple =>
    if strncasecmpEq optname.data entry then
      .ok (some (entry.drop optname.length))
    else .ok none
  | .allowNo =>
    let entry' := if strncasecmpEq ['n', 'o', '-'] entry then entry.drop 3 else entry
    if strncasecmpEq optname.data entry' then
      .ok (some (entry'.drop optname.length))
    else .ok none
  | .withArgs =>
    if strncasecmpEq optname.data entry then
      match entry.drop optname.length with
      | '=' :: '"' :: rest =>
        match ssh_scan_quoted_value rest with
        | some rest' => .ok (some rest')
        | none => .error ()
      | _ => .error ()
    else .ok none

/-- The inner `for` loop of `ssh_host_authorized_keys_skip_options`: try the
table entries in order, stopping at the first that advances the scan; a
malformed argument-bearing option aborts the whole line. -/
def ssh_authorized_keys_options_first :
    List (String × SshOptionType) → List Char → Except Unit (Option (List Char))
  | [], _ => .ok none
  | opt :: opts, entry =>
    match ssh_authorized_keys_option_try entry opt.1 opt.2 with
    | .error _ => .error ()
    | .ok (some entry') => .ok (some entry')
    | .ok none => ssh_authorized_keys_options_first opts entry

/-- The outer `while` loop of `ssh_host_authorized_keys_skip_options`.
Fuel-indexed: every iteration of the C loop consumes at least one input
character, so `entry.length + 1` units of fuel (supplied by the wrapper)
can never run out. `none` is the C `return -1`. -/
def ssh_skip_options_go : Nat → List Char → Option (List Char)
  | 0, _ => none
  | fuel + 1, entry =>
    match entry with
    | [] => some []
    | c :: _ =>
      if isblank c then some entry
      else
        match ssh_authorized_keys_options_first sshd_authorized_keys_options entry with
        | .error _ => none
        | .ok result =>
          match result.getD entry with
          | [] => some []
          | c' :: rest' =>
            if isblank c' then some (c' :: rest')
            else if c' = ',' then
              match rest' with
              | [] => none
              | _ :: _ => ssh_skip_options_go fuel rest'
            else none

/-- `ssh_host_authorized_keys_skip_options`: skip a leading authorized-keys
options clause. `some rest` is the C `return 0` with `*entryp` updated to
`rest`; `none` is the C `return -1`, in which case `*entryp` is left
untouched (the C only assigns `*entryp` on the success path). -/
def ssh_host_authorized_keys_skip_options (entry : List Char) : Option (List Char) :=
  ssh_skip_options_go (entry.length + 1) entry

/-- `ssh_host_authorized_keys_entry_field_matches`: the field token must
occur verbatim at the scan position (`strncmp`) and be followed by a blank
(`isblank(entry[fieldlen])`; at end of field this reads the terminator,
which is not blank). On success the scan position advances past the token,
onto the blank. -/
def ssh_host_authorized_keys_entry_field_matches (field : String)
    (entry : List Char) : Option (List Char) :=
  if entry.take field.length = field.data ∧
      (entry.drop field.length).head?.any isblank = true then
    some (entry.drop field.length)
  else none

/-- The per-line body of the `getline` loop in
`ssh_host_authorized_keys_user`: comment/blank-line check, option skipping,
then the two field matches with blank skipping in between. When
`skip_options` fails it has not moved `*entryp`, so the C guard
`entry != line` is never true and the scan proceeds from the line start. -/
def ssh_host_authorized_keys_line_matches (keytype key : String)
    (line : String) : Bool :=
  if line.data.head? = some '#' ∨ line.data.head? = some '\n' then false
  else
    match ssh_host_authorized_keys_entry_field_matches keytype
        (((ssh_host_authorized_keys_skip_options line.data).getD line.data).dropWhile isblank) with
    | none => false
    | some entry =>
      (ssh_host_authorized_keys_entry_field_matches key (entry.dropWhile isblank)).isSome

/-- `ssh_host_authorized_keys_user`: scan a user's authorized-keys file.
The file is given as its `getline` lines (each normally ends in a newline);
`none` models `fopen` failing (no key file), which is the normal no-match
outcome. The C breaks at the first matching line; as a match decision this
is `List.any`. -/
def ssh_host_authorized_keys_user (keytype key : String)
    (file : Option (List String)) : Bool :=
  match file with
  | none => false
  | some lines => lines.any (ssh_host_authorized_keys_line_matches keytype key)

/-- The `sshd_authorized_keys_types[]` table: the eight key types accepted
by `-t`. -/
def sshd_authorized_keys_types : List String :=
  ["sk-ecdsa-sha2-nistp256@openssh.com",
   "ecdsa-sha2-nistp256",
   "ecdsa-sha2-nistp384",
   "ecdsa-sha2-nistp521",
   "sk-ssh-ed25519@openssh.com",
   "ssh-ed25519",
   "ssh-dss",
   "ssh-rsa"]

/-- Parsed command-line of `ssh-host-authorized-keys`. -/
structure SshHostArgs where
  keytype : String
  group : String
deriving DecidableEq

/-- `ssh_host_authorized_keys_parse_args` after flag extraction: `group?`
and `keytype?` are the `-G`/`-t` values, `positionals` the count of
remaining arguments. `none` is any of the usage-error exits, including an
unknown key type (the `strcmp` scan over `sshd_authorized_keys_types`
exhausting the table). -/
def ssh_host_authorized_keys_parse_args (group? keytype? : Option String)
    (positionals : Nat) : Option SshHostArgs :=
  match group? with
  | none => none
  | some g =>
    match keytype? with
    | none => none
    | some t =>
      if t ∈ sshd_authorized_keys_types then
        if positionals = 1 then some ⟨t, g⟩ else none
      else none

/-- The failure exits of `ssh-host-authorized-keys`' `main`. -/
inductive SshHostExit
  | usage
  | noMatch
deriving DecidableEq

/-- `main` of `ssh-host-authorized-keys`: parse arguments, find the group by
name in enumeration order, then take the first password entry that is a
member of the group and whose key file matches; on success print the
`environment="SSH_AUTHORIZED_BY=..."` line. `groups` and `users` model the
system databases in `getgrent`/`getpwent` enumeration order; each user
entry carries the content of the authorized-keys file reached through its
home directory. -/
def ssh_host_authorized_keys_main (group? keytype? : Option String)
    (positionals : Nat) (key : String)
    (groups : List (String × List String))
    (users : List (String × Option (List String))) :
    Except SshHostExit String :=
  match ssh_host_authorized_keys_parse_args group? keytype? positionals with
  | none => .error .usage
  | some args =>
    match groups.find? (fun gr => gr.1 == args.group) with
    | none => .error .noMatch
    | some gr =>
      match users.find? (fun pw =>
          gr.2.contains pw.1 &&
          ssh_host_authorized_keys_user args.keytype key pw.2) with
      | none => .error .noMatch
      | some pw =>
        .ok ("environment=\"SSH_AUTHORIZED_BY=" ++ pw.1 ++ "\" "
              ++ args.keytype ++ " " ++ key)

/-! ### src/git-host/main.c: command tokenizer (`git_host_expand_command`) -/

/-- The failure exits of `git_host_expand_command`. -/
inductive ExpandError
  | unclosedQuote
  | emptyCommand
deriving DecidableEq

/-- The states of the `git_host_expand_command` automaton that can consume
input (`EXPAND_END`/`EXPAND_ERROR_UNCLOSED_QUOTE` are final and appear as
results of the wrapper instead). -/
inductive ExpandState
  | spaces
  | literal
  | quoteSingle
  | quoteDouble
  | quoteDoubleEscape
deriving DecidableEq

/-- Accumulator of the tokenizer: the automaton state, the current argument
being built (reversed), and the completed arguments in order. -/
structure ExpandAcc where
  state : ExpandState
  cur : List Char
  args : List String
deriving DecidableEq

/-- One transition of `git_host_expand_command` on a non-NUL input
character. -/
def git_host_expand_step (a : ExpandAcc) (c : Char) : ExpandAcc :=
  match a.state with
  | .spaces =>
    if c = ' ' then a
    else if c = '"' then { a with state := .quoteDouble, cur := [] }
    else if c = '\'' then { a with state := .quoteSingle, cur := [] }
    else { a with state := .literal, cur := [c] }
  | .literal =>
    if c = '"' then { a with state := .quoteDouble }
    else if c = '\'' then { a with state := .quoteSingle }
    else if c = ' ' then
      { state := .spaces, cur := [], args := a.args ++ [⟨a.cur.reverse⟩] }
    else { a with cur := c :: a.cur }
  | .quoteSingle =>
    if c = '\'' then { a with state := .literal }
    else { a with cur := c :: a.cur }
  | .quoteDouble =>
    if c = '"' then { a with state := .literal }
    else if c = '\\' then { a with state := .quoteDoubleEscape }
    else { a with cur := c :: a.cur }
  | .quoteDoubleEscape =>
    { a with state := .quoteDouble, cur := c :: a.cur }

/-- The end-of-input handling of `git_host_expand_command`: at NUL a quoting
state is the `EXPAND_ERROR_UNCLOSED_QUOTE` exit; `EXPAND_LITERAL` pushes the
pending argument; then zero arguments is the empty-command exit. (The final
`NULL` sentinel push and `--*argcp` of the C are the `execv` argument-vector
convention and carry no information.) -/
def git_host_expand_finish (a : ExpandAcc) : Except ExpandError (List String) :=
  match a.state with
  | .quoteSingle => .error .unclosedQuote
  | .quoteDouble => .error .unclosedQuote
  | .quoteDoubleEscape => .error .unclosedQuote
  | .spaces => if a.args.isEmpty then .error .emptyCommand else .ok a.args
  | .literal =>
    if (a.args ++ [String.mk a.cur.reverse]).isEmpty then .error .emptyCommand
    else .ok (a.args ++ [String.mk a.cur.reverse])

/-- `git_host_expand_command`: tokenize the forced-command string by running
the automaton over the input bytes and applying the end-of-input handling. -/
def git_host_expand_command (command : String) : Except ExpandError (List String) :=
  git_host_expand_finish
    ((command.data.takeWhile (fun c => c != '\x00')).foldl git_host_expand_step
      ⟨.spaces, [], []⟩)

/-! ### src/git-host/main.c: path normalizer (`git_host_normalize_path`) -/

/-- The states of the `git_host_normalize_path` automaton. -/
inductive NormalizeState
  | trailingSlash
  | nameDotDot
  | nameDot
  | name
deriving DecidableEq

/-- The mid-string `"../"` rewind of `NORMALIZE_STATE_NAME_DOT_DOT`:
`if (dst != 0) { dst -= 2; while (dst != 0 && path[dst-1] != '/') dst--; }`
on the reversed output buffer. (When nonempty the buffer ends in a
component plus `'/'`, so it has at least two characters and the C `dst -= 2`
cannot underflow.) -/
def git_host_rewind_dotdot (r : List Char) : List Char :=
  match r with
  | [] => r
  | _ :: _ => (r.drop 2).dropWhile (fun c => c != '/')

/-- The scan loop of the end-of-string `".."` rewind:
`while (dst != 0 && path[dst] != '/') dst--;` — the character at `path[dst]`
is the one most recently removed from the (reversed) buffer; the
short-circuit `&&` checks `dst != 0` (buffer emptiness) first. -/
def git_host_final_go (lastRemoved : Char) : List Char → List Char
  | [] => []
  | c :: r' =>
    if lastRemoved = '/' then c :: r' else git_host_final_go c r'

/-- The end-of-string handling of `NORMALIZE_STATE_NAME_DOT_DOT`:
`if (dst != 0) { dst -= 2; while (dst != 0 && path[dst] != '/') dst--; }`.
The one-element case is unreachable (a nonempty buffer in this state ends
in a component plus `'/'`). -/
def git_host_final_dotdot : List Char → List Char
  | [] => []
  | [_] => []
  | _ :: b :: r => git_host_final_go b r

/-- One transition of `git_host_normalize_path` on a non-NUL input
character; the buffer is the written prefix `path[0..dst)`, reversed. -/
def git_host_normalize_step :
    NormalizeState × List Char → Char → NormalizeState × List Char
  | (.trailingSlash, r), c =>
    if c = '/' then (.trailingSlash, r)
    else if c = '.' then (.nameDot, r)
    else (.name, c :: r)
  | (.nameDotDot, r), c =>
    if c = '/' then (.trailingSlash, git_host_rewind_dotdot r)
    else (.name, c :: '.' :: '.' :: r)
  | (.nameDot, r), c =>
    if c = '/' then (.trailingSlash, r)
    else if c = '.' then (.nameDotDot, r)
    else (.name, c :: '.' :: r)
  | (.name, r), c =>
    if c = '/' then (.trailingSlash, '/' :: r) else (.name, c :: r)

/-- The `switch (state)` after the scan loop of `git_host_normalize_path`:
drop a trailing slash (or lone dot component), or resolve a trailing
`".."`. -/
def git_host_normalize_final : NormalizeState → List Char → List Char
  | .trailingSlash, r => r.drop 1
  | .nameDot, r => r.drop 1
  | .nameDotDot, r => git_host_final_dotdot r
  | .name, r => r

/-- The result packaging of `git_host_normalize_path`: terminate the buffer
(`path[dst] = '\0'`) and reject an empty (or resolved-empty) result
(`return -1`, here `none`). -/
def git_host_normalize_pack (res : NormalizeState × List Char) : Option String :=
  if git_host_normalize_final res.1 res.2 = [] then none
  else some ⟨(git_host_normalize_final res.1 res.2).reverse⟩

/-- `git_host_normalize_path`: canonicalize a path in a single left-to-right
pass of the automaton. -/
def git_host_normalize_path (s : String) : Option String :=
  git_host_normalize_pack
    ((s.data.takeWhile (fun c => c != '\x00')).foldl git_host_normalize_step
      (.trailingSlash, []))

/-! ### src/git-host/main.c: sandbox check and dispatch -/

/-- `enum git_host_mode` (`NA`, `RO`, `WR`, `RW` with values 0..3). -/
inductive GitHostMode
  | na
  | ro
  | wr
  | rw
deriving DecidableEq

/-- `mode & GIT_HOST_MODE_WR`: the write bit is set for `WR` and `RW`. -/
def GitHostMode.isWr : GitHostMode → Bool
  | .wr => true
  | .rw => true
  | _ => false

/-- The two fatal failures reachable from `git_host_repository`:
`errx("Invalid repository path ...")` (from a failed normalization or a
failed `git_host_check_repository_path`) and `errx("Missing authorization")`
(raised inside the check when `SSH_AUTHORIZED_BY` is unset for a write
mode). -/
inductive GitHostFailure
  | invalidPath
  | missingAuthorization
deriving DecidableEq

/-- The path-shape rejection condition of `git_host_check_repository_path`:
`s == NULL || s[1] == '.' || strchr(s + 1, '/') != NULL` where
`s = strchr(path, '/')`. (`s` is the suffix from the first `'/'`;
`s == NULL` is the suffix being empty; `s[1]` is the head after that
slash.) -/
def git_host_bad_shape (path : String) : Prop :=
  path.data.dropWhile (fun c => c != '/') = []
  ∨ ((path.data.dropWhile (fun c => c != '/')).drop 1).head? = some '.'
  ∨ ((path.data.dropWhile (fun c => c != '/')).drop 1).contains '/'

instance (path : String) : Decidable (git_host_bad_shape path) := by
  unfold git_host_bad_shape; infer_instance

/-- `git_host_check_repository_path`: the path must be `<toplevel>/<git dir>`
(exactly one `'/'`, second component not starting with `'.'`); for write
modes the `SSH_AUTHORIZED_BY` value must be present and equal the first
component in both length and bytes. `sshAuthorizedBy` is the
`getenv("SSH_AUTHORIZED_BY")` result. -/
def git_host_check_repository_path (path : String) (mode : GitHostMode)
    (sshAuthorizedBy : Option String) : Except GitHostFailure Unit :=
  if git_host_bad_shape path then
    .error .invalidPath
  else if mode.isWr then
    match sshAuthorizedBy with
    | none => .error .missingAuthorization
    | some authorized =>
      if authorized.length ≠ (path.data.takeWhile (fun c => c != '/')).length
          ∨ path.data.take authorized.length ≠ authorized.data then
        .error .invalidPath
      else .ok ()
  else .ok ()

/-- `git_host_pathcat`: `dir` and `sub` joined by a single `'/'`. -/
def git_host_pathcat (dir sub : String) : String := dir ++ "/" ++ sub

/-- `git_host_repository`: normalize the raw path, run the sandbox check,
and on success join the normalized path under the repositories root
(`CONFIG_GIT_HOST_REPOSITORIES`, passed as `repositoriesRoot`). -/
def git_host_repository (repositoriesRoot raw : String) (mode : GitHostMode)
    (sshAuthorizedBy : Option String) : Except GitHostFailure String :=
  match git_host_normalize_path raw with
  | none => .error .invalidPath
  | some path =>
    match git_host_check_repository_path path mode sshAuthorizedBy with
    | .error e => .error e
    | .ok _ => .ok (git_host_pathcat repositoriesRoot path)

/-- The observable outcomes of `git_host_exec`: reach an `execl` (terminal
on success), run the directory listing, or take one of the fatal error
exits. -/
inductive GitHostOutcome
  | exec (binary : String) (argv : List String)
  | listing (dirs : List String)
  | exitUsage
  | exitInvalidCommand
  | exitInvalidPath
  | exitMissingAuthorization
deriving DecidableEq

/-- `git_host_execpath`: `getenv("GIT_EXEC_PATH")` with the `config.h`
default, joined with the file name; the resolved directory is passed as
`gitExecPath`. -/
def git_host_execpath (gitExecPath file : String) : String :=
  git_host_pathcat gitExecPath file

/-- `git_host_exec_rx_tx` (shared body of the three transfer handlers):
exactly one repository argument, then resolve it and `execl` the matching
git binary with the resolved path as sole extra argument. -/
def git_host_exec_rx_tx (gitExecPath repositoriesRoot : String)
    (sshAuthorizedBy : Option String) (name : String) (args : List String)
    (mode : GitHostMode) : GitHostOutcome :=
  match args with
  | [repo] =>
    match git_host_repository repositoriesRoot repo mode sshAuthorizedBy with
    | .error .invalidPath => .exitInvalidPath
    | .error .missingAuthorization => .exitMissingAuthorization
    | .ok path => .exec (git_host_execpath gitExecPath name) [name, path]
  | _ => .exitUsage

/-- `git_host_exec`: look the first argument up in the fixed `commands[]`
table (in order, by exact `strcmp`) and run the handler; an exhausted table
is the `errx("Invalid command ...")` exit. `args` are the arguments after
`argv[0]`. The `dir` handler's filesystem enumeration is abstracted to the
names it would list. -/
def git_host_exec (gitExecPath repositoriesRoot : String)
    (sshAuthorizedBy : Option String) (name : String) (args : List String) :
    GitHostOutcome :=
  if name = "dir" then .listing args
  else if name = "init" then
    match args with
    | [repo] =>
      match git_host_repository repositoriesRoot repo .wr sshAuthorizedBy with
      | .error .invalidPath => .exitInvalidPath
      | .error .missingAuthorization => .exitMissingAuthorization
      | .ok path =>
        .exec (git_host_execpath gitExecPath "git-init")
          ["git-init", "--quiet", "--bare", "--", path]
    | _ => .exitUsage
  else if name = "git-receive-pack" then
    git_host_exec_rx_tx gitExecPath repositoriesRoot sshAuthorizedBy name args .wr
  else if name = "git-upload-archive" then
    git_host_exec_rx_tx gitExecPath repositoriesRoot sshAuthorizedBy name args .ro
  else if name = "git-upload-pack" then
    git_host_exec_rx_tx gitExecPath repositoriesRoot sshAuthorizedBy name args .ro
  else .exitInvalidCommand

/-- The process exit codes of the outcomes: the usage exits and every
`errx(EXIT_FAILURE, ...)` exit with `EXIT_FAILURE` (1); a successful `exec`
replaces the process image and never returns; a successful listing exits 0. -/
def git_host_outcome_exit_code : GitHostOutcome → Option Nat
  | .exec _ _ => none
  | .listing _ => some 0
  | .exitUsage => some 1
  | .exitInvalidCommand => some 1
  | .exitInvalidPath => some 1
  | .exitMissingAuthorization => some 1

/-- The exit code after a failed `execl`: `err(-1, ...)` calls `exit(-1)`,
whose status byte is 255. -/
def git_host_exec_failure_exit_code : Nat := 255

/-! ### Helper lemmas -/

theorem take_length_takeWhile (p : Char → Bool) (l : List Char) :
    l.take (l.takeWhile p).length = l.takeWhile p := by
  induction l with
  | nil => rfl
  | cons a l ih =>
    rw [List.takeWhile_cons]
    by_cases h : p a
    · simp [h, List.take_succ_cons, ih]
    · simp [h]

/-! ### Claims about the dispatch engine (C2, C3, C8, C9) -/

theorem check_repository_path_of_bad_shape (path : String) (mode : GitHostMode)
    (env : Option String) (h : git_host_bad_shape path) :
    git_host_check_repository_path path mode env = .error .invalidPath := by
  unfold git_host_check_repository_path
  rw [if_pos h]

theorem check_repository_path_wr_some (path a : String) (mode : GitHostMode)
    (hm : mode.isWr = true) (hsh : ¬ git_host_bad_shape path) :
    git_host_check_repository_path path mode (some a)
      = if a.length ≠ (path.data.takeWhile (fun c => c != '/')).length
            ∨ path.data.take a.length ≠ a.data then
          .error .invalidPath
        else .ok () := by
  unfold git_host_check_repository_path
  rw [if_neg hsh, if_pos hm]

theorem check_repository_path_wr_none (path : String) (mode : GitHostMode)
    (hm : mode.isWr = true) (hsh : ¬ git_host_bad_shape path) :
    git_host_check_repository_path path mode none = .error .missingAuthorization := by
  unfold git_host_check_repository_path
  rw [if_neg hsh, if_pos hm]

theorem check_repository_path_ro (path : String) (mode : GitHostMode)
    (env : Option String) (hm : mode.isWr = false) :
    git_host_check_repository_path path mode env
      = if git_host_bad_shape path then .error .invalidPath else .ok () := by
  unfold git_host_check_repository_path
  by_cases hsh : git_host_bad_shape path
  · rw [if_pos hsh, if_pos hsh]
  · rw [if_neg hsh, if_neg hsh, hm]
    simp

/-- Claim C2: for mutating validations with the asserted identity present,
`git_host_check_repository_path` succeeds only if the identity equals the
first component of the (normalized) path exactly in length and bytes, and
any mismatch is the path-validation failure; for read-only modes the check
never consults the identity at all (its result is independent of the
environment value). -/
theorem git_host_identity_enforcement :
    (∀ (path a : String) (mode : GitHostMode), mode.isWr = true →
      (git_host_check_repository_path path mode (some a) = .ok () →
        a.data = path.data.takeWhile (fun c => c != '/'))
      ∧ (a.data ≠ path.data.takeWhile (fun c => c != '/') →
        git_host_check_repository_path path mode (some a) = .error .invalidPath))
    ∧ (∀ (path : String) (mode : GitHostMode) (e₁ e₂ : Option String),
      mode.isWr = false →
      git_host_check_repository_path path mode e₁
        = git_host_check_repository_path path mode e₂) := by
  constructor
  · intro path a mode hm
    have key : a.length = (path.data.takeWhile (fun c => c != '/')).length ∧
        path.data.take a.length = a.data →
        a.data = path.data.takeWhile (fun c => c != '/') := by
      rintro ⟨h1, h2⟩
      have h1' : a.data.length = (path.data.takeWhile (fun c => c != '/')).length := h1
      rw [← h2, show a.length = a.data.length from rfl, h1', take_length_takeWhile]
    constructor
    · intro h
      by_cases hsh : git_host_bad_shape path
      · rw [check_repository_path_of_bad_shape path mode (some a) hsh] at h
        simp at h
      · rw [check_repository_path_wr_some path a mode hm hsh] at h
        by_cases hc : a.length ≠ (path.data.takeWhile (fun c => c != '/')).length
            ∨ path.data.take a.length ≠ a.data
        · rw [if_pos hc] at h; simp at h
        · push_neg at hc
          exact key hc
    · intro hne
      by_cases hsh : git_host_bad_shape path
      · exact check_repository_path_of_bad_shape path mode (some a) hsh
      · rw [check_repository_path_wr_some path a mode hm hsh]
        have hc : a.length ≠ (path.data.takeWhile (fun c => c != '/')).length
            ∨ path.data.take a.length ≠ a.data := by
          by_contra hcon
          push_neg at hcon
          exact hne (key hcon)
        rw [if_pos hc]
  · intro path mode e₁ e₂ hm
    rw [check_repository_path_ro path mode e₁ hm, check_repository_path_ro path mode e₂ hm]

/-- Claim C2 witness: concrete identity-enforcement instance. -/
theorem git_host_identity_enforcement_witness :
    git_host_check_repository_path "bob/repo" GitHostMode.wr (some "alice")
      = .error .invalidPath :=
  (git_host_identity_enforcement.1 "bob/repo" "alice" .wr rfl).2 (by decide)

/-- Claim C3 counterexample: a mutating request with no asserted identity
whose raw path has no `'/'` fails as an ordinary path-validation failure
(`Invalid repository path`), not as the missing-authorization configuration
error — so the configuration error is not raised before the path checks. -/
theorem git_host_missing_identity_after_path_checks :
    git_host_repository "repos" "x" GitHostMode.wr none = .error .invalidPath
    ∧ GitHostFailure.invalidPath ≠ GitHostFailure.missingAuthorization :=
  ⟨rfl, by decide⟩

/-- Claim C3 (amended): for a mutating request with the asserted identity
absent, the fatal missing-authorization error is raised only after path
normalization and path-shape validation have both succeeded; the two
failures are distinct constructors. -/
theorem git_host_missing_identity_error_order
    (root raw p : String) (mode : GitHostMode) (hm : mode.isWr = true)
    (hn : git_host_normalize_path raw = some p)
    (hsh : ¬ git_host_bad_shape p) :
    git_host_repository root raw mode none = .error .missingAuthorization
    ∧ GitHostFailure.missingAuthorization ≠ GitHostFailure.invalidPath := by
  refine ⟨?_, by decide⟩
  have hrepo : git_host_repository root raw mode none
      = (match git_host_check_repository_path p mode none with
         | .error e => .error e
         | .ok _ => .ok (git_host_pathcat root p)) := by
    unfold git_host_repository
    rw [hn]
  rw [hrepo, check_repository_path_wr_none p mode hm hsh]

/-- Claim C3 witness: concrete instance of the amended ordering statement. -/
theorem git_host_missing_identity_error_order_witness :
    git_host_repository "repos" "alice/repo" GitHostMode.wr none
      = .error .missingAuthorization
    ∧ GitHostFailure.missingAuthorization ≠ GitHostFailure.invalidPath :=
  git_host_missing_identity_error_order "repos" "alice/repo" "alice/repo"
    .wr rfl rfl (by decide)

/-- Claim C8: the command table of `git_host_exec` is closed — any first
argument other than the five fixed names is rejected with the
invalid-command exit, regardless of the remaining arguments; no handler
outside the table is reachable. -/
theorem git_host_command_table_closed
    (gitExecPath repositoriesRoot : String) (sshAuthorizedBy : Option String)
    (cmd : String) (args : List String)
    (h : cmd ∉ ["dir", "init", "git-receive-pack", "git-upload-archive",
                "git-upload-pack"]) :
    git_host_exec gitExecPath repositoriesRoot sshAuthorizedBy cmd args
      = .exitInvalidCommand := by
  simp only [List.mem_cons, List.not_mem_nil, or_false, not_or] at h
  obtain ⟨h1, h2, h3, h4, h5⟩ := h
  unfold git_host_exec
  rw [if_neg h1, if_neg h2, if_neg h3, if_neg h4, if_neg h5]

/-- Claim C8 witness: an arbitrary shell command name is rejected. -/
theorem git_host_command_table_closed_witness :
    git_host_exec "gitexec" "repos" none "bash" ["-c", "id"]
      = .exitInvalidCommand :=
  git_host_command_table_closed "gitexec" "repos" none "bash" ["-c", "id"]
    (by decide)

/-- Claim C9 counterexample: the usage-error exit code equals the
unknown-command exit code (both are `EXIT_FAILURE`, i.e. 1), and the
unknown-command exit code is not the conventional 127 — so usage and
validation failures are not distinct from the unknown-command code. -/
theorem git_host_exit_codes_not_distinct :
    git_host_outcome_exit_code .exitUsage
      = git_host_outcome_exit_code .exitInvalidCommand
    ∧ git_host_outcome_exit_code .exitInvalidCommand ≠ some 127 :=
  ⟨rfl, by decide⟩

/-- Claim C9 (amended): usage errors, path-validation failures, the
missing-authorization error and the unknown-command error all exit with
the same non-zero code `EXIT_FAILURE` (1); only the exec-failure exit code
(`err(-1)`, status byte 255) is distinct from them. -/
theorem git_host_exit_codes_actual :
    git_host_outcome_exit_code .exitUsage = some 1
    ∧ git_host_outcome_exit_code .exitInvalidPath = some 1
    ∧ git_host_outcome_exit_code .exitMissingAuthorization = some 1
    ∧ git_host_outcome_exit_code .exitInvalidCommand = some 1
    ∧ git_host_exec_failure_exit_code = 255
    ∧ some git_host_exec_failure_exit_code ≠ git_host_outcome_exit_code .exitUsage
    ∧ git_host_outcome_exit_code .exitInvalidCommand ≠ some 0 :=
  ⟨rfl, rfl, rfl, rfl, rfl, by decide, by decide⟩

/-! ### Claims about the resolution engine (C7, C10) -/

/-- Claim C7: a key-file line whose options clause is malformed (unknown
option token, or a malformed argument-bearing option — these are exactly
the `skip_options` failures) does not match, and scanning continues with
the remaining lines of the file unchanged, so a valid entry on a later
line is still matched. The second hypothesis states that the line does not
begin with the key-type token itself (which is what having an options
clause means). -/
theorem ssh_malformed_options_line_skipped (keytype key line : String)
    (lines : List String)
    (hopt : ssh_host_authorized_keys_skip_options line.data = none)
    (hkt : ssh_host_authorized_keys_entry_field_matches keytype
        (line.data.dropWhile isblank) = none) :
    ssh_host_authorized_keys_line_matches keytype key line = false
    ∧ ssh_host_authorized_keys_user keytype key (some (line :: lines))
        = ssh_host_authorized_keys_user keytype key (some lines) := by
  have hline : ssh_host_authorized_keys_line_matches keytype key line = false := by
    unfold ssh_host_authorized_keys_line_matches
    rw [hopt]
    by_cases hh : line.data.head? = some '#' ∨ line.data.head? = some '\n'
    · rw [if_pos hh]
    · rw [if_neg hh]
      simp only [Option.getD_none]
      rw [hkt]
  refine ⟨hline, ?_⟩
  unfold ssh_host_authorized_keys_user
  simp [List.any_cons, hline]

/-- Claim C7 witness: a line with an unknown option token is skipped and a
valid entry on the following line still decides the scan. -/
theorem ssh_malformed_options_line_skipped_witness :
    ssh_host_authorized_keys_line_matches "ssh-ed25519" "AAAAKEY"
      "unknown-opt ssh-ed25519 AAAAKEY x\n" = false
    ∧ ssh_host_authorized_keys_user "ssh-ed25519" "AAAAKEY"
        (some ["unknown-opt ssh-ed25519 AAAAKEY x\n", "ssh-ed25519 AAAAKEY x\n"])
      = ssh_host_authorized_keys_user "ssh-ed25519" "AAAAKEY"
        (some ["ssh-ed25519 AAAAKEY x\n"]) :=
  ssh_malformed_options_line_skipped "ssh-ed25519" "AAAAKEY"
    "unknown-opt ssh-ed25519 AAAAKEY x\n" ["ssh-ed25519 AAAAKEY x\n"] rfl rfl

/-- Claim C10: if the presented key type is not one of the eight entries of
`sshd_authorized_keys_types`, the resolution engine exits with a usage
error whatever the group/password databases and key files contain (so
before any of them is read), and emits no authorized-keys output line. -/
theorem ssh_invalid_keytype_usage_error (g t key : String) (positionals : Nat)
    (ht : t ∉ sshd_authorized_keys_types) :
    ∀ (groups : List (String × List String))
      (users : List (String × Option (List String))),
      ssh_host_authorized_keys_main (some g) (some t) positionals key groups users
        = .error .usage := by
  intro groups users
  have hparse : ssh_host_authorized_keys_parse_args (some g) (some t) positionals
      = none := by
    show (if t ∈ sshd_authorized_keys_types then
        if positionals = 1 then some (⟨t, g⟩ : SshHostArgs) else none
      else none) = none
    rw [if_neg ht]
  show (match ssh_host_authorized_keys_parse_args (some g) (some t) positionals with
    | none => (Except.error SshHostExit.usage : Except SshHostExit String)
    | some args =>
      match groups.find? (fun (gr : String × List String) => gr.1 == args.group) with
      | none => .error .noMatch
      | some gr =>
        match users.find? (fun (pw : String × Option (List String)) =>
            gr.2.contains pw.1 &&
            ssh_host_authorized_keys_user args.keytype key pw.2) with
        | none => .error .noMatch
        | some pw =>
          .ok ("environment=\"SSH_AUTHORIZED_BY=" ++ pw.1 ++ "\" "
                ++ args.keytype ++ " " ++ key)) = .error .usage
  rw [hparse]

/-- Claim C10 witness: an unsupported key type is rejected with the usage
error on populated databases. -/
theorem ssh_invalid_keytype_usage_error_witness :
    ssh_host_authorized_keys_main (some "devs") (some "ssh-foo") 1 "AAAAKEY"
      [("devs", ["alice"])] [("alice", some ["ssh-ed25519 AAAAKEY x\n"])]
      = .error .usage :=
  ssh_invalid_keytype_usage_error "devs" "ssh-foo" "AAAAKEY" 1 (by decide)
    [("devs", ["alice"])] [("alice", some ["ssh-ed25519 AAAAKEY x\n"])]

/-! ### Claim C5: double-quote escape handling of the tokenizer -/

theorem takeWhile_ne_nul_eq_self {l : List Char} (h : ∀ c ∈ l, c ≠ '\x00') :
    l.takeWhile (fun c => c != '\x00') = l := by
  induction l with
  | nil => rfl
  | cons a t ih =>
    rw [List.takeWhile_cons, if_pos (by simpa using h a (List.mem_cons_self a t)),
      ih (fun x hx => h x (List.mem_cons_of_mem a hx))]

/-- Claim C5 counterexample: inside a double-quoted span the tokenizer drops
the backslash for every escaped character, so `cmd "a\nb"` yields the
argument `anb` — not the claimed `a\nb` (backslash kept). -/
theorem git_host_expand_backslash_dropped :
    git_host_expand_command "cmd \"a\\nb\"" = .ok ["cmd", "anb"]
    ∧ ("anb" : String) ≠ "a\\nb" :=
  ⟨rfl, by decide⟩

/-- Claim C5 (amended): inside a double-quoted span a backslash escapes the
following character unconditionally: the backslash is dropped and the next
character is taken literally, whatever it is (`\"` → `"`, `\\` → `\`, and
any other `\c` → `c`). First conjunct: the escape state emits exactly the
escaped character. Second conjunct: end to end on `cmd "a\{c}b"` for every
non-NUL character `c`. -/
theorem git_host_expand_double_quote_escape :
    (∀ (a : ExpandAcc) (c : Char), a.state = .quoteDoubleEscape →
      git_host_expand_step a c = ⟨.quoteDouble, c :: a.cur, a.args⟩)
    ∧ ∀ (c : Char), c ≠ '\x00' →
      git_host_expand_command ("cmd \"a\\" ++ String.singleton c ++ "b\"")
        = .ok ["cmd", "a" ++ String.singleton c ++ "b"] := by
  constructor
  · intro a c h
    unfold git_host_expand_step
    rw [h]
  · intro c hc
    have hdata : ("cmd \"a\\" ++ String.singleton c ++ "b\"").data
        = "cmd \"a\\".data ++ c :: "b\"".data := rfl
    have hmem : ∀ x ∈ "cmd \"a\\".data ++ c :: "b\"".data, x ≠ '\x00' := by
      intro x hx
      rcases List.mem_append.mp hx with hx | hx
      · exact (by decide : ∀ x ∈ "cmd \"a\\".data, x ≠ '\x00') x hx
      · rcases List.mem_cons.mp hx with rfl | hx
        · exact hc
        · exact (by decide : ∀ x ∈ "b\"".data, x ≠ '\x00') x hx
    have h1 : ("cmd \"a\\".data).foldl git_host_expand_step ⟨.spaces, [], []⟩
        = ⟨.quoteDoubleEscape, ['a'], ["cmd"]⟩ := rfl
    have hstep : git_host_expand_step ⟨.quoteDoubleEscape, ['a'], ["cmd"]⟩ c
        = ⟨.quoteDouble, [c, 'a'], ["cmd"]⟩ := rfl
    have h2 : ("b\"".data).foldl git_host_expand_step ⟨.quoteDouble, [c, 'a'], ["cmd"]⟩
        = ⟨.literal, ['b', c, 'a'], ["cmd"]⟩ := rfl
    unfold git_host_expand_command
    rw [hdata, takeWhile_ne_nul_eq_self hmem, List.foldl_append, h1,
      List.foldl_cons, hstep, h2]
    rfl

/-- Claim C5 witness: the amended statement at the concrete character `n`. -/
theorem git_host_expand_double_quote_escape_witness :
    git_host_expand_command ("cmd \"a\\" ++ String.singleton 'n' ++ "b\"")
      = .ok ["cmd", "a" ++ String.singleton 'n' ++ "b"] :=
  git_host_expand_double_quote_escape.2 'n' (by decide)

/-! ### Claims C4 and C6: safety and idempotence of the path normalizer

The proofs go through a buffer invariant of the automaton: at a component
boundary the (reversed) buffer is a sequence of good components each
followed by `'/'` (`BufBnd`); inside a name it is such a sequence followed
by a good partial component (`BufName`). A good component is nonempty,
slash-free, NUL-free, and neither `"."` nor `".."`. -/

/-- A well-formed output component of the normalizer. -/
def goodComp (c : List Char) : Prop :=
  c ≠ [] ∧ '/' ∉ c ∧ '\x00' ∉ c ∧ c ≠ ['.'] ∧ c ≠ ['.', '.']

instance (c : List Char) : Decidable (goodComp c) := by
  unfold goodComp; infer_instance

/-- Reversed buffers at a component boundary: empty, or a good component
followed by `'/'` atop another boundary buffer. -/
inductive BufBnd : List Char → Prop
  | nil : BufBnd []
  | cons (c r : List Char) : goodComp c → BufBnd r → BufBnd ('/' :: c.reverse ++ r)

/-- Reversed buffers inside a name: a good partial component atop a
boundary buffer. -/
def BufName (r : List Char) : Prop :=
  ∃ P r', goodComp P ∧ BufBnd r' ∧ r = P.reverse ++ r'

/-- The automaton invariant: boundary-shaped buffer in the slash/dot
states, name-shaped buffer in the name state. -/
def NormInv : NormalizeState × List Char → Prop
  | (.trailingSlash, r) => BufBnd r
  | (.nameDot, r) => BufBnd r
  | (.nameDotDot, r) => BufBnd r
  | (.name, r) => BufName r

theorem goodComp_single {c : Char} (h1 : c ≠ '/') (h2 : c ≠ '.')
    (h3 : c ≠ '\x00') : goodComp [c] := by
  refine ⟨by simp, by simp [Ne.symm h1], by simp [Ne.symm h3], ?_, by simp⟩
  simp [h2]

theorem goodComp_dot {c : Char} (h1 : c ≠ '/') (h2 : c ≠ '.')
    (h3 : c ≠ '\x00') : goodComp ['.', c] := by
  refine ⟨by simp, ?_, ?_, by simp, ?_⟩
  · simp [Ne.symm h1]
  · simp [Ne.symm h3]
  · simp [h2]

theorem goodComp_dotdot {c : Char} (h1 : c ≠ '/') (h3 : c ≠ '\x00') :
    goodComp ['.', '.', c] := by
  refine ⟨by simp, ?_, ?_, by simp, by simp⟩
  · simp [Ne.symm h1]
  · simp [Ne.symm h3]

theorem goodComp_snoc {P : List Char} {c : Char} (hP : goodComp P)
    (h1 : c ≠ '/') (h3 : c ≠ '\x00') : goodComp (P ++ [c]) := by
  obtain ⟨hne, hs, hn, hd1, hd2⟩ := hP
  refine ⟨by simp, ?_, ?_, ?_, ?_⟩
  · simp [hs, Ne.symm h1]
  · simp [hn, Ne.symm h3]
  · intro h
    have := congrArg List.length h
    simp at this
    exact hne this
  · intro h
    have hl := congrArg List.length h
    simp at hl
    obtain ⟨a, rfl⟩ := List.length_eq_one.mp hl
    simp at h
    exact hd1 (by simp [h.1])

theorem dropWhile_ne_slash_append {xs r : List Char} (h : ∀ a ∈ xs, a ≠ '/') :
    (xs ++ r).dropWhile (fun c => c != '/') = r.dropWhile (fun c => c != '/') := by
  induction xs with
  | nil => rfl
  | cons x t ih =>
    rw [List.cons_append, List.dropWhile_cons,
      if_pos (by simpa using h x (List.mem_cons_self x t))]
    exact ih (fun a ha => h a (List.mem_cons_of_mem x ha))

theorem bufBnd_dropWhile {r : List Char} (h : BufBnd r) :
    r.dropWhile (fun c => c != '/') = r := by
  cases h with
  | nil => rfl
  | cons c r' hc hr =>
    rw [List.cons_append, List.dropWhile_cons, if_neg (by simp)]

theorem bufBnd_reverse_cons {c : List Char} (hc : goodComp c) :
    ∃ x xs, c.reverse = x :: xs ∧ x ≠ '/' ∧ ∀ a ∈ xs, a ≠ '/' := by
  rcases hrev : c.reverse with _ | ⟨x, xs⟩
  · exact absurd (List.reverse_eq_nil_iff.mp hrev) hc.1
  · refine ⟨x, xs, rfl, ?_, ?_⟩
    · intro hx
      subst hx
      exact hc.2.1 (by rw [← List.mem_reverse, hrev]; exact List.mem_cons_self _ _)
    · intro a ha hEq
      subst hEq
      exact hc.2.1 (by rw [← List.mem_reverse, hrev]; exact List.mem_cons_of_mem x ha)

theorem bufBnd_rewind {r : List Char} (h : BufBnd r) :
    BufBnd (git_host_rewind_dotdot r) := by
  cases h with
  | nil => exact BufBnd.nil
  | cons c r' hc hr =>
    obtain ⟨x, xs, hx, _, hxs⟩ := bufBnd_reverse_cons hc
    show BufBnd ((('/' :: c.reverse ++ r').drop 2).dropWhile (fun c => c != '/'))
    rw [hx, List.cons_append, List.cons_append, List.drop_succ_cons,
      List.drop_succ_cons, List.drop_zero, dropWhile_ne_slash_append hxs,
      bufBnd_dropWhile hr]
    exact hr

theorem normInv_step (s : NormalizeState × List Char) (c : Char)
    (h : NormInv s) (hc : c ≠ '\x00') : NormInv (git_host_normalize_step s c) := by
  obtain ⟨st, r⟩ := s
  cases st with
  | trailingSlash =>
    have hb : BufBnd r := h
    by_cases h1 : c = '/'
    · simpa [git_host_normalize_step, h1, NormInv] using hb
    · by_cases h2 : c = '.'
      · simpa [git_host_normalize_step, h1, h2, NormInv] using hb
      · simp only [git_host_normalize_step, if_neg h1, if_neg h2]
        exact ⟨[c], r, goodComp_single h1 h2 hc, hb, rfl⟩
  | nameDot =>
    have hb : BufBnd r := h
    by_cases h1 : c = '/'
    · simpa [git_host_normalize_step, h1, NormInv] using hb
    · by_cases h2 : c = '.'
      · simpa [git_host_normalize_step, h1, h2, NormInv] using hb
      · simp only [git_host_normalize_step, if_neg h1, if_neg h2]
        exact ⟨['.', c], r, goodComp_dot h1 h2 hc, hb, by simp⟩
  | nameDotDot =>
    have hb : BufBnd r := h
    by_cases h1 : c = '/'
    · simp only [git_host_normalize_step, if_pos h1]
      exact bufBnd_rewind hb
    · simp only [git_host_normalize_step, if_neg h1]
      exact ⟨['.', '.', c], r, goodComp_dotdot h1 hc, hb, by simp⟩
  | name =>
    obtain ⟨P, r', hP, hB, rfl⟩ := h
    by_cases h1 : c = '/'
    · simp only [git_host_normalize_step, if_pos h1]
      subst h1
      exact BufBnd.cons P r' hP hB
    · simp only [git_host_normalize_step, if_neg h1]
      exact ⟨P ++ [c], r', goodComp_snoc hP h1 hc, hB, by simp⟩

theorem normInv_foldl (l : List Char) (s : NormalizeState × List Char)
    (h : NormInv s) (hl : ∀ c ∈ l, c ≠ '\x00') :
    NormInv (l.foldl git_host_normalize_step s) := by
  induction l generalizing s with
  | nil => exact h
  | cons c t ih =>
    rw [List.foldl_cons]
    exact ih _ (normInv_step s c h (hl c (List.mem_cons_self c t)))
      (fun x hx => hl x (List.mem_cons_of_mem c hx))

theorem final_go_boundary (xs : List Char) :
    ∀ (r₀ : List Char) (last : Char), last ≠ '/' → (∀ a ∈ xs, a ≠ '/') →
    git_host_final_go last (xs ++ r₀)
      = (match r₀ with
         | [] => ([] : List Char)
         | c :: r' => git_host_final_go c r') := by
  induction xs with
  | nil =>
    intro r₀ last hlast _
    rw [List.nil_append]
    cases r₀ with
    | nil => rfl
    | cons c r' =>
      show (if last = '/' then c :: r' else git_host_final_go c r')
        = git_host_final_go c r'
      rw [if_neg hlast]
  | cons x t ih =>
    intro r₀ last hlast hxs
    rw [List.cons_append]
    show (if last = '/' then x :: (t ++ r₀) else git_host_final_go x (t ++ r₀)) = _
    rw [if_neg hlast]
    exact ih r₀ x (hxs x (List.mem_cons_self x t))
      (fun a ha => hxs a (List.mem_cons_of_mem x ha))

theorem bufBnd_final_dotdot {r : List Char} (h : BufBnd r) :
    git_host_final_dotdot r = [] ∨ BufName (git_host_final_dotdot r) := by
  cases h with
  | nil => left; rfl
  | cons c r' hc hr =>
    obtain ⟨x, xs, hx, hxslash, hxs⟩ := bufBnd_reverse_cons hc
    have hred : git_host_final_dotdot ('/' :: c.reverse ++ r')
        = git_host_final_go x (xs ++ r') := by
      rw [List.cons_append, hx, List.cons_append]
      rfl
    rw [hred, final_go_boundary xs r' x hxslash hxs]
    cases hr with
    | nil => left; rfl
    | cons c₂ r₂ hc₂ hr₂ =>
      right
      obtain ⟨y, ys, hy, _, _⟩ := bufBnd_reverse_cons hc₂
      show BufName (git_host_final_go '/' (c₂.reverse ++ r₂))
      rw [hy, List.cons_append]
      show BufName (if ('/' : Char) = '/' then y :: (ys ++ r₂)
        else git_host_final_go y (ys ++ r₂))
      rw [if_pos rfl, ← List.cons_append, ← hy]
      exact ⟨c₂, r₂, hc₂, hr₂, rfl⟩

theorem bufBnd_drop_one {r : List Char} (h : BufBnd r) :
    r.drop 1 = [] ∨ BufName (r.drop 1) := by
  cases h with
  | nil => left; rfl
  | cons c r' hc hr =>
    right
    exact ⟨c, r', hc, hr, by simp⟩

theorem normalize_final_result {st : NormalizeState} {buf : List Char}
    (h : NormInv (st, buf)) :
    git_host_normalize_final st buf = []
    ∨ BufName (git_host_normalize_final st buf) := by
  cases st with
  | trailingSlash => exact bufBnd_drop_one h
  | nameDot => exact bufBnd_drop_one h
  | nameDotDot => exact bufBnd_final_dotdot h
  | name => right; exact h

theorem normalize_some_bufName {s r : String}
    (h : git_host_normalize_path s = some r) : BufName r.data.reverse := by
  have hinv : NormInv ((s.data.takeWhile (fun c => c != '\x00')).foldl
      git_host_normalize_step (.trailingSlash, [])) :=
    normInv_foldl _ _ BufBnd.nil
      (fun c hc => by simpa using List.mem_takeWhile_imp hc)
  unfold git_host_normalize_path at h
  rcases hfold : (s.data.takeWhile (fun c => c != '\x00')).foldl
      git_host_normalize_step (.trailingSlash, []) with ⟨st, buf⟩
  rw [hfold] at h hinv
  unfold git_host_normalize_pack at h
  by_cases hout : git_host_normalize_final st buf = []
  · rw [if_pos hout] at h
    exact absurd h (by simp)
  · rw [if_neg hout] at h
    have hrd : r.data = (git_host_normalize_final st buf).reverse := by
      have := Option.some.inj h
      rw [← this]
    have hrev : r.data.reverse = git_host_normalize_final st buf := by
      rw [hrd, List.reverse_reverse]
    rcases normalize_final_result hinv with hnil | hbn
    · exact absurd hnil hout
    · rw [hrev]
      exact hbn

/-- Forward-order normal forms: a nonempty sequence of good components
joined by single slashes. These are exactly the buffers a successful
normalization can produce. -/
inductive NF : List Char → Prop
  | single (c : List Char) : goodComp c → NF c
  | snoc (l c : List Char) : NF l → goodComp c → NF (l ++ '/' :: c)

theorem bufBnd_nf {r' : List Char} (h : BufBnd r') :
    ∀ P, goodComp P → NF (r'.reverse ++ P) := by
  induction h with
  | nil => intro P hP; simpa using NF.single P hP
  | cons c r₀ hc h₀ ih =>
    intro P hP
    have heq : ('/' :: c.reverse ++ r₀).reverse ++ P
        = (r₀.reverse ++ c) ++ '/' :: P := by
      simp
    rw [heq]
    exact NF.snoc _ _ (ih c hc) hP

theorem bufName_nf {r : List Char} (h : BufName r) : NF r.reverse := by
  obtain ⟨P, r', hP, hB, rfl⟩ := h
  have heq : (P.reverse ++ r').reverse = r'.reverse ++ P := by simp
  rw [heq]
  exact bufBnd_nf hB P hP

theorem nf_front {l : List Char} (h : NF l) :
    ∃ c t, goodComp c ∧ (l = c ∨ l = c ++ '/' :: t) := by
  induction h with
  | single c hc => exact ⟨c, [], hc, Or.inl rfl⟩
  | snoc l₀ c₀ h₀ hc₀ ih =>
    obtain ⟨c₁, t₁, h₁, hor⟩ := ih
    rcases hor with heq | heq
    · exact ⟨c₁, c₀, h₁, Or.inr (by rw [heq])⟩
    · refine ⟨c₁, t₁ ++ '/' :: c₀, h₁, Or.inr ?_⟩
      rw [heq]
      simp

/-- Claim C4: a successful normalization result never escapes the sandbox
root: it does not begin with `'/'`, it is not the component `".."`, and it
does not begin with the component `".."` followed by a separator. (A `".."`
with no preceding component is silently dropped, never climbing above the
root — see the witness on `"../a"`.) -/
theorem git_host_normalize_no_escape (s r : String)
    (h : git_host_normalize_path s = some r) :
    r.data.head? ≠ some '/' ∧ r.data ≠ ['.', '.']
    ∧ ¬ ∃ t, r.data = '.' :: '.' :: '/' :: t := by
  have hnf : NF r.data := by
    have := bufName_nf (normalize_some_bufName h)
    simpa using this
  obtain ⟨c, t, hc, hor⟩ := nf_front hnf
  obtain ⟨x, xs, rfl⟩ : ∃ x xs, c = x :: xs := by
    rcases c with _ | ⟨x, xs⟩
    · exact absurd rfl hc.1
    · exact ⟨x, xs, rfl⟩
  have hxslash : x ≠ '/' := by
    intro hEq
    exact hc.2.1 (hEq ▸ List.mem_cons_self x xs)
  refine ⟨?_, ?_, ?_⟩
  · rcases hor with heq | heq
    · rw [heq]
      simp [hxslash]
    · rw [heq]
      simp [List.cons_append, hxslash]
  · rcases hor with heq | heq
    · rw [heq]
      exact hc.2.2.2.2
    · rw [heq]
      intro hEq
      have hmem : '/' ∈ (x :: xs) ++ '/' :: t :=
        List.mem_append_right _ (List.mem_cons_self _ _)
      rw [hEq] at hmem
      simp at hmem
  · rintro ⟨t₀, ht₀⟩
    rcases hor with heq | heq
    · rw [heq] at ht₀
      exact hc.2.1 (by rw [ht₀]; simp)
    · rw [heq] at ht₀
      rw [List.cons_append] at ht₀
      simp only [List.cons.injEq] at ht₀
      obtain ⟨rfl, ht₁⟩ := ht₀
      rcases xs with _ | ⟨y, ys⟩
      · simp at ht₁
      · rw [List.cons_append] at ht₁
        simp only [List.cons.injEq] at ht₁
        obtain ⟨rfl, ht₂⟩ := ht₁
        rcases ys with _ | ⟨z, zs⟩
        · exact hc.2.2.2.2 rfl
        · rw [List.cons_append] at ht₂
          simp only [List.cons.injEq] at ht₂
          obtain ⟨rfl, _⟩ := ht₂
          exact hc.2.1 (by simp)

/-- Claim C4 witness: `"../a"` (a `".."` at the root) normalizes to `"a"` —
the `".."` is dropped — and the result satisfies the no-escape properties. -/
theorem git_host_normalize_no_escape_witness :
    git_host_normalize_path "../a" = some "a"
    ∧ ("a".data.head? ≠ some '/' ∧ "a".data ≠ ['.', '.']
        ∧ ¬ ∃ t, "a".data = '.' :: '.' :: '/' :: t) :=
  ⟨rfl, git_host_normalize_no_escape "../a" "a" rfl⟩

theorem foldl_name_run (t : List Char) :
    ∀ acc, (∀ x ∈ t, x ≠ '/') →
    t.foldl git_host_normalize_step (.name, acc) = (.name, t.reverse ++ acc) := by
  induction t with
  | nil => intro acc _; simp
  | cons x t ih =>
    intro acc hx
    rw [List.foldl_cons]
    have hstep : git_host_normalize_step (.name, acc) x = (.name, x :: acc) := by
      simp only [git_host_normalize_step, if_neg (hx x (List.mem_cons_self x t))]
    rw [hstep, ih (x :: acc) (fun a ha => hx a (List.mem_cons_of_mem x ha))]
    simp

theorem foldl_comp_run (c : List Char) (acc : List Char) (h : goodComp c) :
    c.foldl git_host_normalize_step (.trailingSlash, acc)
      = (.name, c.reverse ++ acc) := by
  obtain ⟨hne, hs, hn, hd1, hd2⟩ := h
  rcases c with _ | ⟨a, t⟩
  · exact absurd rfl hne
  have ha : a ≠ '/' := fun hEq => hs (hEq ▸ List.mem_cons_self a t)
  have ht : ∀ x ∈ t, x ≠ '/' :=
    fun x hxm hEq => hs (hEq ▸ List.mem_cons_of_mem a hxm)
  by_cases ha2 : a = '.'
  · subst ha2
    rcases t with _ | ⟨b, t'⟩
    · exact absurd rfl hd1
    have hb : b ≠ '/' := ht b (List.mem_cons_self b t')
    have ht' : ∀ x ∈ t', x ≠ '/' :=
      fun x hxm => ht x (List.mem_cons_of_mem b hxm)
    by_cases hb2 : b = '.'
    · subst hb2
      rcases t' with _ | ⟨d, t''⟩
      · exact absurd rfl hd2
      have hd : d ≠ '/' := ht' d (List.mem_cons_self d t'')
      have ht'' : ∀ x ∈ t'', x ≠ '/' :=
        fun x hxm => ht' x (List.mem_cons_of_mem d hxm)
      rw [List.foldl_cons, List.foldl_cons, List.foldl_cons]
      show t''.foldl git_host_normalize_step
          (git_host_normalize_step (.nameDotDot, acc) d) = _
      have s3 : git_host_normalize_step (.nameDotDot, acc) d
          = (.name, d :: '.' :: '.' :: acc) := by
        simp only [git_host_normalize_step, if_neg hd]
      rw [s3, foldl_name_run t'' _ ht'']
      simp
    · rcases t' with _ | ⟨d, t''⟩
      · rw [List.foldl_cons, List.foldl_cons]
        show ([] : List Char).foldl git_host_normalize_step
            (git_host_normalize_step (.nameDot, acc) b) = _
        have s2 : git_host_normalize_step (.nameDot, acc) b
            = (.name, b :: '.' :: acc) := by
          simp only [git_host_normalize_step, if_neg hb, if_neg hb2]
        rw [s2]
        simp
      · rw [List.foldl_cons, List.foldl_cons]
        show (d :: t'').foldl git_host_normalize_step
            (git_host_normalize_step (.nameDot, acc) b) = _
        have s2 : git_host_normalize_step (.nameDot, acc) b
            = (.name, b :: '.' :: acc) := by
          simp only [git_host_normalize_step, if_neg hb, if_neg hb2]
        rw [s2, foldl_name_run (d :: t'') _
          (fun x hxm => ht' x hxm)]
        simp
  · rw [List.foldl_cons]
    have s1 : git_host_normalize_step (.trailingSlash, acc) a
        = (.name, a :: acc) := by
      simp only [git_host_normalize_step, if_neg ha, if_neg ha2]
    rw [s1, foldl_name_run t _ ht]
    simp

theorem nf_ne_nil {l : List Char} (h : NF l) : l ≠ [] := by
  induction h with
  | single c hc => exact hc.1
  | snoc l₀ c h₀ hc ih => simp

theorem nf_no_nul {l : List Char} (h : NF l) : ∀ x ∈ l, x ≠ '\x00' := by
  induction h with
  | single c hc =>
    intro x hx hEq
    subst hEq
    exact hc.2.2.1 hx
  | snoc l₀ c h₀ hc ih =>
    intro x hx
    rcases List.mem_append.mp hx with hx | hx
    · exact ih x hx
    · rcases List.mem_cons.mp hx with rfl | hx
      · decide
      · intro hEq
        subst hEq
        exact hc.2.2.1 hx

theorem foldl_nf {l : List Char} (h : NF l) :
    l.foldl git_host_normalize_step (.trailingSlash, []) = (.name, l.reverse) := by
  induction h with
  | single c hc => simpa using foldl_comp_run c [] hc
  | snoc l₀ c h₀ hc ih =>
    rw [List.foldl_append, ih, List.foldl_cons]
    have hstep : git_host_normalize_step (.name, l₀.reverse) '/'
        = (.trailingSlash, '/' :: l₀.reverse) := by
      simp [git_host_normalize_step]
    rw [hstep, foldl_comp_run c ('/' :: l₀.reverse) hc]
    simp

theorem normalize_nf {l : List Char} (h : NF l) :
    git_host_normalize_path ⟨l⟩ = some ⟨l⟩ := by
  unfold git_host_normalize_path
  rw [show (String.mk l).data = l from rfl,
    takeWhile_ne_nul_eq_self (nf_no_nul h), foldl_nf h]
  unfold git_host_normalize_pack
  rw [show git_host_normalize_final .name l.reverse = l.reverse from rfl]
  have hrev : l.reverse ≠ [] := by
    simpa [List.reverse_eq_nil_iff] using nf_ne_nil h
  rw [if_neg hrev]
  simp

/-- Claim C6: path normalization is idempotent — whenever normalization
succeeds with result `r`, normalizing `r` again succeeds and returns `r`
unchanged. -/
theorem git_host_normalize_idempotent (s r : String)
    (h : git_host_normalize_path s = some r) :
    git_host_normalize_path r = some r := by
  obtain ⟨l⟩ := r
  have hnf : NF l := by
    have := bufName_nf (normalize_some_bufName h)
    simpa using this
  exact normalize_nf hnf

/-- Claim C6 witness: normalizing `"a//b/"` yields `"a/b"`, and normalizing
that result again yields it unchanged. -/
theorem git_host_normalize_idempotent_witness :
    git_host_normalize_path "a/b" = some "a/b" :=
  git_host_normalize_idempotent "a//b/" "a/b" rfl

/-! ### Claim C1: the entry matcher's acceptance condition -/

theorem take_append_self (l₁ l₂ : List Char) : (l₁ ++ l₂).take l₁.length = l₁ := by
  induction l₁ with
  | nil => rfl
  | cons a t ih => simp [List.cons_append, List.take_succ_cons, ih]

theorem drop_append_self (l₁ l₂ : List Char) : (l₁ ++ l₂).drop l₁.length = l₂ := by
  induction l₁ with
  | nil => rfl
  | cons a t ih => simp [List.cons_append, List.drop_succ_cons, ih]

/-- `ssh_host_authorized_keys_entry_field_matches` succeeds exactly when the
scan position is the field token followed by a blank, and then returns the
rest starting at that blank. -/
theorem entry_field_matches_iff (field : String) (entry rest : List Char) :
    ssh_host_authorized_keys_entry_field_matches field entry = some rest ↔
      ∃ b t, rest = b :: t ∧ isblank b = true ∧ entry = field.data ++ b :: t := by
  unfold ssh_host_authorized_keys_entry_field_matches
  constructor
  · intro h
    by_cases hc : entry.take field.length = field.data ∧
        (entry.drop field.length).head?.any isblank = true
    · rw [if_pos hc] at h
      obtain ⟨h1, h2⟩ := hc
      have hrest : rest = entry.drop field.length := (Option.some.inj h).symm
      rcases hdrop : entry.drop field.length with _ | ⟨b, t⟩
      · rw [hdrop] at h2
        simp at h2
      · rw [hdrop] at h2 hrest
        refine ⟨b, t, hrest, by simpa using h2, ?_⟩
        conv_lhs => rw [← List.take_append_drop field.length entry]
        rw [h1, hdrop]
    · rw [if_neg hc] at h
      simp at h
  · rintro ⟨b, t, rfl, hb, rfl⟩
    have h1 : (field.data ++ b :: t).take field.length = field.data :=
      take_append_self field.data (b :: t)
    have h2 : (field.data ++ b :: t).drop field.length = b :: t :=
      drop_append_self field.data (b :: t)
    rw [if_pos ⟨h1, by rw [h2]; simpa using hb⟩, h2]

/-- Claim C1 (amended), specification side: the matcher accepts a line
exactly when it is not a comment/blank line and, after option-skipping
(a failed skip leaving the position at the line start) and whitespace, the
key-type token occurs followed by a blank, and after further whitespace the
key-material token occurs followed by a blank (space or tab) — end of line
or end of field after the key-material token does not match. -/
def ssh_line_matches_spec (keytype key : String) (line : String) : Prop :=
  line.data.head? ≠ some '#' ∧ line.data.head? ≠ some '\n' ∧
  ∃ b t, ((ssh_host_authorized_keys_skip_options line.data).getD
        line.data).dropWhile isblank = keytype.data ++ b :: t
    ∧ isblank b = true
    ∧ ∃ b' t', (b :: t).dropWhile isblank = key.data ++ b' :: t'
        ∧ isblank b' = true

/-- Claim C1 (amended): the executable entry matcher accepts exactly the
lines described by `ssh_line_matches_spec` — both tokens must be followed
by a blank; in particular a key-material token followed only by the end of
the line does not match (see the counterexample theorem). -/
theorem ssh_entry_matcher_characterization (keytype key line : String) :
    ssh_host_authorized_keys_line_matches keytype key line = true
      ↔ ssh_line_matches_spec keytype key line := by
  unfold ssh_host_authorized_keys_line_matches ssh_line_matches_spec
  by_cases hh : line.data.head? = some '#' ∨ line.data.head? = some '\n'
  · rw [if_pos hh]
    constructor
    · intro h
      exact absurd h (by simp)
    · rintro ⟨h1, h2, -⟩
      rcases hh with hh | hh
      · exact absurd hh h1
      · exact absurd hh h2
  · rw [if_neg hh]
    push_neg at hh
    rcases hm : ssh_host_authorized_keys_entry_field_matches keytype
        (((ssh_host_authorized_keys_skip_options line.data).getD
          line.data).dropWhile isblank) with _ | e₁
    · simp only [hm]
      constructor
      · intro h
        exact absurd h (by simp)
      · rintro ⟨-, -, b, t, heq, hb, -⟩
        have hsome := (entry_field_matches_iff keytype _ (b :: t)).mpr
          ⟨b, t, rfl, hb, heq⟩
        rw [hm] at hsome
        exact absurd hsome (by simp)
    · simp only [hm]
      obtain ⟨b, t, rfl, hb, heq⟩ := (entry_field_matches_iff keytype _ e₁).mp hm
      constructor
      · intro h
        rw [Option.isSome_iff_exists] at h
        obtain ⟨e₂, he₂⟩ := h
        obtain ⟨b', t', rfl, hb', heq'⟩ := (entry_field_matches_iff key _ e₂).mp he₂
        exact ⟨hh.1, hh.2, b, t, heq, hb, b', t', heq', hb'⟩
      · rintro ⟨-, -, b₀, t₀, heq₀, hb₀, b', t', heq', hb'⟩
        have hcan : b₀ :: t₀ = b :: t :=
          List.append_cancel_left (heq₀.symm.trans heq)
        injection hcan with hb₀b ht₀t
        subst hb₀b
        subst ht₀t
        have hsome := (entry_field_matches_iff key
            ((b₀ :: t₀).dropWhile isblank) (b' :: t')).mpr ⟨b', t', rfl, hb', heq'⟩
        rw [hsome]
        rfl

/-- Claim C1 counterexample: the line `"ssh-ed25519 AAAAKEY\n"`, whose
key-material token is followed only by the end of the line (no trailing
comment), does not match — `isblank('\n')` is false — and consequently the
spec's end-to-end scenario (group `devs`, member `alice`, key file
`ssh-ed25519 AAAAKEY`) resolves to no-match instead of emitting the
authorized-keys line. -/
theorem ssh_entry_matcher_rejects_end_of_line_key :
    ssh_host_authorized_keys_line_matches "ssh-ed25519" "AAAAKEY"
      "ssh-ed25519 AAAAKEY\n" = false
    ∧ ssh_host_authorized_keys_main (some "devs") (some "ssh-ed25519") 1 "AAAAKEY"
        [("devs", ["alice"])] [("alice", some ["ssh-ed25519 AAAAKEY\n"])]
      = .error .noMatch :=
  ⟨rfl, rfl⟩

/-- Claim C1 witness: the characterization at a concrete accepted line. -/
theorem ssh_entry_matcher_characterization_witness :
    (ssh_host_authorized_keys_line_matches "ssh-ed25519" "AAAAKEY"
        "ssh-ed25519 AAAAKEY x\n" = true)
      ↔ ssh_line_matches_spec "ssh-ed25519" "AAAAKEY" "ssh-ed25519 AAAAKEY x\n" :=
  ssh_entry_matcher_characterization "ssh-ed25519" "AAAAKEY"
    "ssh-ed25519 AAAAKEY x\n"
